import Mathlib

/-!
ogn-go: the message dispatch registry and the APRS connection engine.

A shallow embedding of `message/base.go`, `message/parser.go`,
`message/errors.go` and `aprs.go`, followed by theorems about it.

Go strings are byte sequences.  They are embedded as lists of code units
(`Str`); every byte string is such a list, and the separators the code
searches for (`>` and `,`) are single code units.
-/

set_option autoImplicit false
set_option linter.dupNamespace false

/-- Go `string`: a sequence of code units. -/
abbrev Str := List Char

/-! ## Library primitives used by the source -/

/-- Worker of `stringsIndex`: scan `s`, whose first unit has index `i`. -/
def stringsIndexFrom (substr : Str) (i : Nat) : Str → Int
  | [] => if substr.isPrefixOf [] then (i : Int) else -1
  | c :: cs =>
    if substr.isPrefixOf (c :: cs) then (i : Int) else stringsIndexFrom substr (i + 1) cs

/-- Go `strings.Index(s, substr)`: index of the first instance of `substr` in
`s`, or `-1` when there is none. -/
def stringsIndex (s substr : Str) : Int :=
  stringsIndexFrom substr 0 s

/-- Go slice expression `s[lo:hi]`; `none` stands for the run-time panic on
indices out of range. -/
def sliceStr (s : Str) (lo hi : Int) : Option Str :=
  if 0 ≤ lo ∧ lo ≤ hi ∧ hi ≤ (s.length : Int) then
    some ((s.take hi.toNat).drop lo.toNat)
  else none

/-- Go slice expression `s[lo:]`. -/
def sliceFrom (s : Str) (lo : Int) : Option Str :=
  sliceStr s lo (s.length : Int)

/-- Worker of `Sprintf`: walks the format, consuming one operand per `%s`. -/
def sprintfAux : Str → List Str → Str
  | [], _ => []
  | '%' :: 's' :: fmt, a :: args => a ++ sprintfAux fmt args
  | '%' :: 's' :: fmt, [] => "%!s(MISSING)".toList ++ sprintfAux fmt []
  | '%' :: '%' :: fmt, args => '%' :: sprintfAux fmt args
  | c :: fmt, args => c :: sprintfAux fmt args

/-- Go `fmt.Sprintf` on the fragment the source uses: literal text, `%%`, and
the `%s` verb with string operands. -/
def Sprintf (format : Str) (args : List Str) : Str :=
  sprintfAux format args

/-! ## Go maps -/

/-- Go `map[string]V`, as an association list read by first match. -/
abbrev GoMap (V : Type) := List (Str × V)

/-- Map read with the comma-ok form `v, ok := m[k]`. -/
def mapGet {V : Type} (m : GoMap V) (k : Str) : Option V :=
  match m with
  | [] => none
  | (k', v) :: rest => if k' = k then some v else mapGet rest k

/-- Map assignment `m[k] = v`. -/
def mapSet {V : Type} (m : GoMap V) (k : Str) (v : V) : GoMap V :=
  (k, v) :: m.filter (fun e => decide (e.1 ≠ k))

namespace message

/-! ## package message -/

/-- The error values of package `message` (`errors.go`), and the errors a
decoder may return on its own account. -/
inductive Error where
  | ParserNotFoundError (msgType : Str) (message : Str)
  | ParserExistsError (msgType : Str)
  | InvalidFormatError (msg : Str)
  | decoderError (text : Str)
  deriving DecidableEq, Repr

/-- Method `Error()` of the three error types of `errors.go`. -/
def Error.Error : Error → Str
  | .ParserNotFoundError msgType message =>
    Sprintf "parser for message type %s not found: %s".toList [msgType, message]
  | .ParserExistsError msgType =>
    Sprintf "parser for message type %s already exists".toList [msgType]
  | .InvalidFormatError msg =>
    Sprintf "cannot parse message: %s".toList [msg]
  | .decoderError text => text

/-- Function `extractMessageType` of `base.go`.  The result is the pair the Go
function returns; `none` would be a slice panic. -/
def extractMessageType (message : Str) : Option (Str × Option Error) :=
  let start := stringsIndex message ">".toList
  if start < 0 then
    some ([], some (Error.InvalidFormatError message))
  else
    match sliceFrom message start with
    | none => none
    | some tail =>
      let endIdx := stringsIndex tail ",".toList
      if endIdx < 0 then
        some ([], some (Error.InvalidFormatError message))
      else
        match sliceStr message (start + 1) (start + endIdx) with
        | none => none
        | some marker => some (marker, none)

/-- Type `ParserFunc` of `parser.go`: a decoder takes the message and returns
a parsed message (`interface{}`, `none` for nil) and a potential error.  It
stands for a non-nil function value without side effects. -/
abbrev ParserFunc (α : Type) := Str → Option α × Option Error

/-- Type `parsers` of `parser.go`, the type of `registeredParsers`. -/
abbrev parsers (α : Type) := GoMap (ParserFunc α)

/-- What one call of `Parse` does: the two values it returns, and the decoder
calls it made, each with the argument passed. -/
structure ParseOutcome (α : Type) where
  m : Option α
  err : Option Error
  calls : List (ParserFunc α × Str)

/-- Function `Parse` of `parser.go`, reading the registry `registeredParsers`.
`none` would be a panic raised by `extractMessageType`. -/
def Parse {α : Type} (registeredParsers : parsers α) (message : Str) :
    Option (ParseOutcome α) :=
  match extractMessageType message with
  | none => none
  | some (_, some err) => some { m := none, err := some err, calls := [] }
  | some (msgType, none) =>
    match mapGet registeredParsers msgType with
    | some p => some { m := (p message).1, err := (p message).2, calls := [(p, message)] }
    | none =>
      some { m := none, err := some (Error.ParserNotFoundError msgType []), calls := [] }

/-- Function `Handle` of `parser.go`: the registry after the call, and the
error returned. -/
def Handle {α : Type} (registeredParsers : parsers α) (typeName : Str)
    (parser : ParserFunc α) : parsers α × Option Error :=
  match mapGet registeredParsers typeName with
  | some _ => (registeredParsers, some (Error.ParserExistsError typeName))
  | none => (mapSet registeredParsers typeName parser, none)

/-- Function `testParser` of `parser_test.go`. -/
def testParser : ParserFunc Str :=
  fun _ => (some "ok".toList, none)

/-- A second decoder, which fails on every message. -/
def failingParser : ParserFunc Str :=
  fun msg => (none, some (Error.decoderError msg))

end message

namespace ogn

/-! ## package ogn (`aprs.go`) -/

def statusVerified : Str := "verified".toList

def statusUnverified : Str := "unverified".toList

def maxReconnectRetries : Nat := 6

/-- The error values declared in `aprs.go`, and the errors of the transport
(`net/textproto`) that `dial` passes on. -/
inductive Error where
  | ReadTimeoutError
  | ReconnectFailedError
  | ReadFailedError
  | InvalidResponseError
  | LoginFailedError
  | transport (text : Str)
  deriving DecidableEq, Repr

/-- A `*regexp.Regexp`, by the two methods `unpackResponse` calls. -/
structure Regexp where
  FindStringSubmatch : Str → Option (List Str)
  SubexpNames : List Str

/-- Class `\w` of Go regular expressions: `[0-9A-Za-z_]`. -/
def isWord (c : Char) : Bool :=
  c.isAlphanum || c == '_'

/-- Remove the literal `lit` from the front of `s`, if it is there. -/
def dropLiteral (lit s : Str) : Option Str :=
  if lit.isPrefixOf s then some (s.drop lit.length) else none

/-- A match of the login-confirmation pattern starting at the head of `s`:
the text of the whole match and of its five groups. -/
def matchLogresp (s : Str) : Option (List Str) :=
  match dropLiteral "# logresp ".toList s with
  | none => none
  | some s1 =>
    let user := s1.takeWhile isWord
    if user = [] then none
    else
      match dropLiteral " ".toList (s1.dropWhile isWord) with
      | none => none
      | some s2 =>
        let verified := dropLiteral statusVerified s2
        let unverified := dropLiteral statusUnverified s2
        let status := if verified.isSome then statusVerified else statusUnverified
        match verified.orElse (fun _ => unverified) with
        | none => none
        | some s3 =>
          match dropLiteral ", server ".toList s3 with
          | none => none
          | some s4 =>
            let server := s4.takeWhile isWord
            if server = [] then none
            else
              some ["# logresp ".toList ++ user ++ " ".toList ++ status
                      ++ ", server ".toList ++ server,
                    user, status,
                    if verified.isSome then statusVerified else [],
                    if verified.isSome then [] else statusUnverified,
                    server]

/-- Leftmost match of the login-confirmation pattern in `s`. -/
def findLogresp : Str → Option (List Str)
  | [] => matchLogresp []
  | c :: cs =>
    match matchLogresp (c :: cs) with
    | some groups => some groups
    | none => findLogresp cs

/-- Variable `loginConfimationPattern`: the compiled pattern
`# logresp (?P<user>\w+) (?P<status>(verified)|(unverified)), server (?P<server>\w+)`. -/
def loginConfimationPattern : Regexp where
  FindStringSubmatch := findLogresp
  SubexpNames := [[], "user".toList, "status".toList, [], [], "server".toList]

/-- The loop `for i, group := range groups` of `unpackResponse`.  The regexp
library returns as many submatches as there are group names, so `matches[i]`
is in range. -/
def unpackLoop (matches_ : List Str) : Nat → List Str → GoMap Str → GoMap Str
  | _, [], result => result
  | i, group :: groups, result =>
    unpackLoop matches_ (i + 1) groups (mapSet result group (matches_.getD i []))

/-- Function `unpackResponse`; `none` is the nil map. -/
def unpackResponse (line : Str) (format : Regexp) : Option (GoMap Str) :=
  match format.FindStringSubmatch line with
  | none => none
  | some matches_ => some (unpackLoop matches_ 0 format.SubexpNames [])

/-- Specification side, not code: the texts that the regular expression
`# logresp (\w+) (verified|unverified), server (\w+)` matches, with the text
of its groups `user`, `status` and `server`. -/
def IsLogresp (text user status server : Str) : Prop :=
  text = "# logresp ".toList ++ user ++ " ".toList ++ status ++ ", server ".toList ++ server
  ∧ user ≠ [] ∧ (∀ c ∈ user, isWord c = true)
  ∧ (status = statusVerified ∨ status = statusUnverified)
  ∧ server ≠ [] ∧ (∀ c ∈ server, isWord c = true)

/-- Specification side, not code: the response line parses against the
login-confirmation pattern with status `s`.  Some part of the line is matched
by the pattern with status `s`, and no part that the pattern matches starts
further left. -/
def ParsesWithStatus (line s : Str) : Prop :=
  ∃ pre text rest user server, line = pre ++ text ++ rest ∧ IsLogresp text user s server
    ∧ ∀ pre2 text2 rest2 user2 s2 server2, line = pre2 ++ text2 ++ rest2 →
        IsLogresp text2 user2 s2 server2 → pre.length ≤ pre2.length

/-- Interface `Urler`. -/
structure Urler where
  URL : Str

/-- Interface `Auther`, by the values of its two methods. -/
structure Auther where
  AuthString : Str
  HasPassword : Bool

/-- Type `settings`. -/
structure settings where
  username : Str
  password : Str
  filter : Str

/-- Method `settings.AuthString`.  The constants `Package` and `Version` are
declared outside the files at hand and are parameters here. -/
def settings.AuthString (Package Version : Str) (s : settings) : Str :=
  let str := Sprintf "user %s pass %s ver %s %s".toList
    [s.username, s.password, Package, Version]
  if s.filter ≠ [] then str ++ Sprintf " %s".toList [s.filter] else str

/-- Method `settings.HasPassword`. -/
def settings.HasPassword (s : settings) : Bool :=
  s.password ≠ [] && s.password ≠ "-1".toList

/-- Function `NewSettings`. -/
def NewSettings (Package Version : Str) (username password filter : Str) : Auther :=
  let s : settings := { username := username, password := password, filter := filter }
  { AuthString := s.AuthString Package Version, HasPassword := s.HasPassword }

/-- A `*textproto.Conn` that is not nil. -/
structure Conn where
  id : Nat
  deriving DecidableEq, Repr

/-- Type `AprsConnection`, without the channel `buffer`. -/
structure AprsConnection where
  server : Urler
  settings : Auther
  withReconnect : Bool

/-- What the network does during one call of `dial`: the result of
`textproto.Dial` and of the two calls of `conn.ReadLine`, an error being
given by its text. -/
structure DialWorld where
  connect : Except Str Conn
  greeting : Except Str Str
  response : Except Str Str

/-- Method `AprsConnection.dial`: the connection and the error it returns.
The login line it writes with `PrintfLine`, whose result the source ignores,
has no part in the values returned. -/
def dial (ac : AprsConnection) (w : DialWorld) : Option Conn × Option Error :=
  match w.connect with
  | .error e => (none, some (Error.transport e))
  | .ok conn =>
    match w.greeting with
    | .error _ => (none, some Error.ReadFailedError)
    | .ok _ =>
      match w.response with
      | .error _ => (none, some Error.ReadFailedError)
      | .ok line =>
        match unpackResponse line loginConfimationPattern with
        | none => (none, some Error.InvalidResponseError)
        | some data =>
          if ac.settings.HasPassword
              && (mapGet data "status".toList).getD [] != statusVerified then
            (none, some Error.LoginFailedError)
          else
            (some conn, none)

/-- What the surroundings do during one call of `Receive`: the network at the
k-th call of `dial`, the error the k-th call of `receiveInConnection` returns
(given the connection it is handed, nil included), and whether `ctx.Done()`
is ready when that call has returned.  The calls are numbered from 0. -/
structure World where
  dials : Nat → DialWorld
  sessions : Nat → Option Conn → Option Error
  done : Nat → Bool

/-- The steps of `Receive` and `reconnect` that reach the outside. -/
inductive Event where
  | sleep (seconds : Nat)
  | dial
  | stream (conn : Option Conn)
  deriving DecidableEq, Repr

/-- Progress of a run: how many calls of `dial` were made, and the events so
far, oldest first. -/
structure Run where
  dials : Nat
  log : List Event
  deriving DecidableEq, Repr

/-- One call of `dial` within a run. -/
def dialAt (ac : AprsConnection) (w : World) (r : Run) :
    (Option Conn × Option Error) × Run :=
  (dial ac (w.dials r.dials), { dials := r.dials + 1, log := r.log ++ [Event.dial] })

/-- The loop of `reconnect` from index `i`, with `remaining` iterations left
before `i` reaches `maxReconnectRetries`. -/
def reconnectFrom (ac : AprsConnection) (w : World) :
    Nat → Nat → Run → (Option Conn × Option Error) × Run
  | 0, _, r => ((none, some Error.ReconnectFailedError), r)
  | remaining + 1, i, r =>
    let slept : Run := { r with log := r.log ++ [Event.sleep i] }
    let attempt := dialAt ac w slept
    match attempt.1.2 with
    | none => attempt
    | some _ => reconnectFrom ac w remaining (i + 1) attempt.2

/-- Method `AprsConnection.reconnect`. -/
def reconnect (ac : AprsConnection) (w : World) (r : Run) :
    (Option Conn × Option Error) × Run :=
  reconnectFrom ac w maxReconnectRetries 0 r

/-- How far `Receive` got: it returned `err`, or it is still in its loop when
the fuel is used up. -/
inductive Outcome where
  | returned (err : Option Error) (r : Run)
  | running (r : Run)
  deriving DecidableEq, Repr

/-- The loop `for err == nil` of `Receive`, for at most `fuel` iterations.
`conn` and `err` are the variables declared before the loop; `k` counts the
streaming sessions.  The body declares an `err` of its own (`err := ...`), and
`conn, err = ac.reconnect()` assigns that one: the `err` of the loop condition
keeps its value. -/
def receiveLoop (ac : AprsConnection) (w : World) :
    Nat → Option Conn → Option Error → Nat → Run → Outcome
  | 0, _, err, _, r =>
    match err with
    | some e => Outcome.returned (some e) r
    | none => Outcome.running r
  | fuel + 1, conn, err, k, r =>
    match err with
    | some e => Outcome.returned (some e) r
    | none =>
      let errBody := w.sessions k conn
      let streamed : Run := { r with log := r.log ++ [Event.stream conn] }
      if w.done k then Outcome.returned errBody streamed
      else if !ac.withReconnect then Outcome.returned errBody streamed
      else
        let again := reconnect ac w streamed
        receiveLoop ac w fuel again.1.1 err (k + 1) again.2

/-- Method `AprsConnection.Receive`. -/
def Receive (ac : AprsConnection) (w : World) (fuel : Nat) : Outcome :=
  let first := dialAt ac w { dials := 0, log := [] }
  receiveLoop ac w fuel first.1.1 first.1.2 0 first.2

/-- A server that accepts the connection, greets, and confirms the login of
`bob` with the given status. -/
def answeringWorld (status : Str) : DialWorld where
  connect := .ok { id := 1 }
  greeting := .ok "# aprsc 2.1.4".toList
  response := .ok ("# logresp bob ".toList ++ status ++ ", server TEST".toList)

/-- A server that cannot be reached. -/
def refusingWorld : DialWorld where
  connect := .error "connection refused".toList
  greeting := .error "closed".toList
  response := .error "closed".toList

/-- The first `dial` succeeds and every later one is refused; every streaming
session ends with a read timeout; the context is never cancelled. -/
def lostServer : World where
  dials := fun k => if k = 0 then answeringWorld statusUnverified else refusingWorld
  sessions := fun _ _ => some Error.ReadTimeoutError
  done := fun _ => false

/-- The connection of `cmd/ogn-cli/main.go`: user `a`, no password, no
filter, reconnection enabled. -/
def cliConnection (Package Version : Str) : AprsConnection where
  server := { URL := "aprs.glidernet.org:10152".toList }
  settings := NewSettings Package Version "a".toList [] []
  withReconnect := true

end ogn

/-! ## Facts about the library primitives -/

theorem stringsIndexFrom_single_absent (c : Char) (s : Str) (i : Nat) (h : c ∉ s) :
    stringsIndexFrom [c] i s = -1 := by
  induction s generalizing i with
  | nil => simp [stringsIndexFrom, List.isPrefixOf]
  | cons d ds ih =>
    have hd : c ≠ d := fun e => h (by simp [e])
    have hds : c ∉ ds := fun e => h (by simp [e])
    simp [stringsIndexFrom, List.isPrefixOf, hd, ih (i + 1) hds]

theorem stringsIndexFrom_single_first (c : Char) (pre post : Str) (i : Nat) (h : c ∉ pre) :
    stringsIndexFrom [c] i (pre ++ c :: post) = ((i + pre.length : Nat) : Int) := by
  induction pre generalizing i with
  | nil => simp [stringsIndexFrom, List.isPrefixOf]
  | cons d ds ih =>
    have hd : c ≠ d := fun e => h (by simp [e])
    have hds : c ∉ ds := fun e => h (by simp [e])
    simp only [List.cons_append, stringsIndexFrom, List.isPrefixOf]
    simp [hd, ih (i + 1) hds]
    omega

theorem stringsIndex_single_absent (c : Char) (s : Str) (h : c ∉ s) :
    stringsIndex s [c] = -1 :=
  stringsIndexFrom_single_absent c s 0 h

theorem stringsIndex_single_first (c : Char) (pre post : Str) (h : c ∉ pre) :
    stringsIndex (pre ++ c :: post) [c] = (pre.length : Int) := by
  simpa [stringsIndex] using stringsIndexFrom_single_first c pre post 0 h

theorem sliceStr_ofNat (s : Str) (lo hi : Nat) (h1 : lo ≤ hi) (h2 : hi ≤ s.length) :
    sliceStr s (lo : Int) (hi : Int) = some ((s.take hi).drop lo) := by
  have c : 0 ≤ (lo : Int) ∧ (lo : Int) ≤ (hi : Int) ∧ (hi : Int) ≤ (s.length : Int) := by
    omega
  simp only [sliceStr, c, and_self, if_true, Int.toNat_ofNat]

theorem sliceFrom_append (pre post : Str) :
    sliceFrom (pre ++ post) (pre.length : Int) = some post := by
  unfold sliceFrom
  rw [sliceStr_ofNat _ _ _ (by simp) (le_refl _), List.take_of_length_le (le_refl _),
    List.drop_left]

theorem sliceStr_middle (pre mid post : Str) :
    sliceStr (pre ++ mid ++ post) (pre.length : Int) ((pre.length + mid.length : Nat) : Int)
      = some mid := by
  rw [sliceStr_ofNat _ _ _ (by omega) (by simp)]
  have e : pre.length + mid.length = (pre ++ mid).length := by simp
  rw [e, List.take_left]
  simp

/-- Every string that contains `c` splits at the first `c`. -/
theorem split_at_first (c : Char) (s : Str) (h : c ∈ s) :
    ∃ pre post, s = pre ++ c :: post ∧ c ∉ pre := by
  induction s with
  | nil => simp at h
  | cons d ds ih =>
    by_cases hd : d = c
    · exact ⟨[], ds, by simp [hd], by simp⟩
    · have hds : c ∈ ds := by
        rcases List.mem_cons.mp h with e | e
        · exact absurd e.symm hd
        · exact e
      obtain ⟨pre, post, e, hpre⟩ := ih hds
      refine ⟨d :: pre, post, by simp [e], ?_⟩
      intro hm
      rcases List.mem_cons.mp hm with e2 | e2
      · exact hd e2.symm
      · exact hpre e2

namespace message

theorem extractMessageType_wellformed (sender marker rest : Str)
    (hs : '>' ∉ sender) (hm : ',' ∉ marker) :
    extractMessageType (sender ++ '>' :: (marker ++ ',' :: rest)) = some (marker, none) := by
  have hstart : stringsIndex (sender ++ '>' :: (marker ++ ',' :: rest)) ">".toList
      = (sender.length : Int) := stringsIndex_single_first '>' sender _ hs
  have htail : sliceFrom (sender ++ '>' :: (marker ++ ',' :: rest)) (sender.length : Int)
      = some ('>' :: (marker ++ ',' :: rest)) := sliceFrom_append sender _
  have hm2 : ',' ∉ '>' :: marker := by
    intro h
    rcases List.mem_cons.mp h with e | e
    · exact absurd e (by decide)
    · exact hm e
  have hend : stringsIndex ('>' :: (marker ++ ',' :: rest)) ",".toList
      = ((marker.length + 1 : Nat) : Int) := by
    have := stringsIndex_single_first ',' ('>' :: marker) rest hm2
    simpa using this
  have hslice : sliceStr (sender ++ '>' :: (marker ++ ',' :: rest))
      ((sender.length : Int) + 1) ((sender.length : Int) + ((marker.length + 1 : Nat) : Int))
      = some marker := by
    have := sliceStr_middle (sender ++ ['>']) marker (',' :: rest)
    simp only [List.length_append, List.length_singleton, List.append_assoc,
      List.singleton_append] at this
    have e1 : ((sender.length + 1 : Nat) : Int) = (sender.length : Int) + 1 := by omega
    have e2 : ((sender.length + 1 + marker.length : Nat) : Int)
        = (sender.length : Int) + ((marker.length + 1 : Nat) : Int) := by omega
    rw [e1, e2] at this
    exact this
  unfold extractMessageType
  have n1 : ¬ ((sender.length : Int) < 0) := by omega
  have n2 : ¬ (((marker.length + 1 : Nat) : Int) < 0) := by omega
  simp only [hstart, htail, hend, hslice, n1, n2, if_false]

theorem extractMessageType_no_separator (line : Str) (h : '>' ∉ line) :
    extractMessageType line = some ([], some (Error.InvalidFormatError line)) := by
  have hstart : stringsIndex line ">".toList = -1 := stringsIndex_single_absent '>' line h
  unfold extractMessageType
  simp only [hstart]
  rfl

theorem extractMessageType_no_comma (pre post : Str) (h1 : '>' ∉ pre) (h2 : ',' ∉ post) :
    extractMessageType (pre ++ '>' :: post)
      = some ([], some (Error.InvalidFormatError (pre ++ '>' :: post))) := by
  have hstart : stringsIndex (pre ++ '>' :: post) ">".toList = (pre.length : Int) :=
    stringsIndex_single_first '>' pre _ h1
  have htail : sliceFrom (pre ++ '>' :: post) (pre.length : Int) = some ('>' :: post) :=
    sliceFrom_append pre _
  have h3 : ',' ∉ '>' :: post := by
    intro h
    rcases List.mem_cons.mp h with e | e
    · exact absurd e (by decide)
    · exact h2 e
  have hend : stringsIndex ('>' :: post) ",".toList = -1 :=
    stringsIndex_single_absent ',' _ h3
  have n1 : ¬ ((pre.length : Int) < 0) := by omega
  unfold extractMessageType
  simp only [hstart, htail, hend, n1, if_false]
  rfl

theorem mapGet_mapSet_same {V : Type} (m : GoMap V) (k : Str) (v : V) :
    mapGet (mapSet m k v) k = some v := by
  simp [mapSet, mapGet]

theorem Parse_registered {α : Type} (reg : parsers α) (line t : Str) (p : ParserFunc α)
    (hx : extractMessageType line = some (t, none)) (hp : mapGet reg t = some p) :
    Parse reg line = some { m := (p line).1, err := (p line).2, calls := [(p, line)] } := by
  simp only [Parse, hx, hp]

end message

/-! ## Type extraction -/

namespace message

/-- C1: for every sender without `>`, every marker without `,` and every rest,
`extractMessageType (sender + ">" + marker + "," + rest)` returns exactly
`marker` together with a nil error. -/
theorem extractMessageType_returns_marker (sender marker rest : Str)
    (hs : '>' ∉ sender) (hm : ',' ∉ marker) :
    extractMessageType (sender ++ ">".toList ++ marker ++ ",".toList ++ rest)
      = some (marker, none) := by
  have e : sender ++ ">".toList ++ marker ++ ",".toList ++ rest
      = sender ++ '>' :: (marker ++ ',' :: rest) := by
    simp
  rw [e]
  exact extractMessageType_wellformed sender marker rest hs hm

/-- The line of `TestExtractMessageType`: sender `FLRDD89C9`, marker `TYPE`. -/
theorem extractMessageType_returns_marker_witness :
    extractMessageType ("FLRDD89C9".toList ++ ">".toList ++ "TYPE".toList ++ ",".toList
      ++ "qAS".toList) = some ("TYPE".toList, none) :=
  extractMessageType_returns_marker "FLRDD89C9".toList "TYPE".toList "qAS".toList
    (by decide) (by decide)

/-- C2: `extractMessageType` returns the empty marker and an
`InvalidFormatError` carrying the line if and only if the line has no `>`, or
has no `,` after its first `>`; on every other line it returns a nil error. -/
theorem extractMessageType_fails_iff (line : Str) :
    (extractMessageType line = some ([], some (Error.InvalidFormatError line))
      ↔ ('>' ∉ line ∨ ∃ pre post, line = pre ++ '>' :: post ∧ '>' ∉ pre ∧ ',' ∉ post))
    ∧ (¬ ('>' ∉ line ∨ ∃ pre post, line = pre ++ '>' :: post ∧ '>' ∉ pre ∧ ',' ∉ post)
      → ∃ marker, extractMessageType line = some (marker, none)) := by
  have key : ¬ ('>' ∉ line ∨ ∃ pre post, line = pre ++ '>' :: post ∧ '>' ∉ pre ∧ ',' ∉ post)
      → ∃ marker, extractMessageType line = some (marker, none) := by
    intro hn
    have hgt : '>' ∈ line := by
      by_contra h
      exact hn (Or.inl h)
    obtain ⟨pre, post, e, hpre⟩ := split_at_first '>' line hgt
    have hc : ',' ∈ post := by
      by_contra h
      exact hn (Or.inr ⟨pre, post, e, hpre, h⟩)
    obtain ⟨marker, rest, e2, hmarker⟩ := split_at_first ',' post hc
    refine ⟨marker, ?_⟩
    rw [e, e2]
    exact extractMessageType_wellformed pre marker rest hpre hmarker
  refine ⟨⟨?_, ?_⟩, key⟩
  · intro h
    by_contra hn
    obtain ⟨marker, hm⟩ := key hn
    rw [hm] at h
    simp at h
  · rintro (h | ⟨pre, post, e, hpre, hpost⟩)
    · exact extractMessageType_no_separator line h
    · rw [e]
      exact extractMessageType_no_comma pre post hpre hpost

/-- C3: when marker `t` already has decoder `p`, `Handle t q` returns
`ParserExistsError` for `t` and leaves the registry as it was, so `t` is still
mapped to `p`, and `Parse` of a line with marker `t` calls `p` (once, with the
line) and no other decoder. -/
theorem Handle_duplicate_keeps_first {α : Type} (reg : parsers α) (t : Str)
    (p q : ParserFunc α) (h : mapGet reg t = some p) :
    Handle reg t q = (reg, some (Error.ParserExistsError t))
    ∧ mapGet (Handle reg t q).1 t = some p
    ∧ ∀ line, extractMessageType line = some (t, none) →
        Parse (Handle reg t q).1 line
          = some { m := (p line).1, err := (p line).2, calls := [(p, line)] } := by
  have e : Handle reg t q = (reg, some (Error.ParserExistsError t)) := by
    simp only [Handle, h]
  refine ⟨e, ?_, ?_⟩
  · rw [e]
    exact h
  · intro line hx
    rw [e]
    exact Parse_registered reg line t p hx h

/-- C4: when marker `t` has no decoder yet, `Handle t p` returns nil, and
afterwards `Parse` of every well-formed line whose marker is `t` calls `p` with
the whole line and returns the value and the error of `p` as they are. -/
theorem Handle_fresh_then_Parse_dispatches {α : Type} (reg : parsers α) (t : Str)
    (p : ParserFunc α) (h : mapGet reg t = none) :
    (Handle reg t p).2 = none
    ∧ ∀ line, extractMessageType line = some (t, none) →
        Parse (Handle reg t p).1 line
          = some { m := (p line).1, err := (p line).2, calls := [(p, line)] } := by
  have e : Handle reg t p = (mapSet reg t p, none) := by
    simp only [Handle, h]
  refine ⟨by rw [e], ?_⟩
  intro line hx
  rw [e]
  exact Parse_registered _ line t p hx (mapGet_mapSet_same reg t p)

/-- C5: on a well-formed line whose marker `m` has no decoder, `Parse` returns
a nil message and a `ParserNotFoundError` whose `msgType` is `m`, and calls no
decoder. -/
theorem Parse_unregistered_marker {α : Type} (reg : parsers α) (line m : Str)
    (hx : extractMessageType line = some (m, none)) (hr : mapGet reg m = none) :
    ∃ text, Parse reg line
      = some { m := none, err := some (Error.ParserNotFoundError m text), calls := [] } := by
  refine ⟨[], ?_⟩
  simp only [Parse, hx, hr]

end message

namespace message

/-- The registration of `TestRegisterTypeDuplicate`: the second `Handle` is
refused and a line with marker `TEST-1` still goes to `testParser`. -/
theorem Handle_duplicate_keeps_first_witness :
    mapGet [("TEST-1".toList, testParser)] "TEST-1".toList = some testParser
    ∧ Handle [("TEST-1".toList, testParser)] "TEST-1".toList failingParser
        = ([("TEST-1".toList, testParser)], some (Error.ParserExistsError "TEST-1".toList))
    ∧ Parse (Handle [("TEST-1".toList, testParser)] "TEST-1".toList failingParser).1
        "FLRDD89C9>TEST-1,qAS".toList
        = some { m := some "ok".toList, err := none,
                 calls := [(testParser, "FLRDD89C9>TEST-1,qAS".toList)] } :=
  have h := Handle_duplicate_keeps_first [("TEST-1".toList, testParser)] "TEST-1".toList
    testParser failingParser (by simp [mapGet])
  ⟨by simp [mapGet], h.1, h.2.2 "FLRDD89C9>TEST-1,qAS".toList (by decide)⟩

/-- A first registration on the empty registry: a decoder that fails has its
error returned by `Parse` as it is. -/
theorem Handle_fresh_then_Parse_dispatches_witness :
    mapGet ([] : parsers Str) "TYPE".toList = none
    ∧ (Handle ([] : parsers Str) "TYPE".toList failingParser).2 = none
    ∧ Parse (Handle ([] : parsers Str) "TYPE".toList failingParser).1
        "FLRDD89C9>TYPE,qAS".toList
        = some { m := none, err := some (Error.decoderError "FLRDD89C9>TYPE,qAS".toList),
                 calls := [(failingParser, "FLRDD89C9>TYPE,qAS".toList)] } :=
  have h := Handle_fresh_then_Parse_dispatches ([] : parsers Str) "TYPE".toList
    failingParser rfl
  ⟨rfl, h.1, h.2 "FLRDD89C9>TYPE,qAS".toList (by decide)⟩

/-- A registry that knows `TEST-1` only, and a line with marker `TYPE`. -/
theorem Parse_unregistered_marker_witness :
    extractMessageType "FLRDD89C9>TYPE,qAS".toList = some ("TYPE".toList, none)
    ∧ mapGet [("TEST-1".toList, testParser)] "TYPE".toList = none
    ∧ ∃ text, Parse [("TEST-1".toList, testParser)] "FLRDD89C9>TYPE,qAS".toList
        = some { m := none, err := some (Error.ParserNotFoundError "TYPE".toList text),
                 calls := [] } :=
  ⟨by decide, by simp [mapGet],
    Parse_unregistered_marker [("TEST-1".toList, testParser)] "FLRDD89C9>TYPE,qAS".toList
      "TYPE".toList (by decide) (by simp [mapGet])⟩

/-- C6: on the well-formed line `FLRDD89C9>TYPE,qAS`, whose marker `TYPE` is not
registered, the `ParserNotFoundError` that `Parse` returns has an empty
`message` field, and its `Error()` text does not end with the line. -/
theorem Parse_not_found_leaves_message_empty :
    (Parse [("TEST-1".toList, testParser)] "FLRDD89C9>TYPE,qAS".toList).map (fun o => o.err)
      = some (some (Error.ParserNotFoundError "TYPE".toList []))
    ∧ (Error.ParserNotFoundError "TYPE".toList []).Error
      = "parser for message type TYPE not found: ".toList
    ∧ "FLRDD89C9>TYPE,qAS".toList.isSuffixOf
        (Error.ParserNotFoundError "TYPE".toList []).Error = false := by
  refine ⟨by decide, by decide, by decide⟩

end message

namespace ogn

/-- C10: `AuthString` of `NewSettings u p f` is
`"user " + u + " pass " + p + " ver " + Package + " " + Version`, followed by
`" " + f` exactly when `f` is not empty. -/
theorem AuthString_of_NewSettings (Package Version u p f : Str) :
    (NewSettings Package Version u p f).AuthString
      = "user ".toList ++ u ++ " pass ".toList ++ p ++ " ver ".toList ++ Package
          ++ " ".toList ++ Version ++ (if f = [] then [] else " ".toList ++ f) := by
  by_cases hf : f = []
  · simp [NewSettings, settings.AuthString, Sprintf, sprintfAux, hf]
  · simp [NewSettings, settings.AuthString, Sprintf, sprintfAux, hf]

end ogn

namespace ogn

/-! ## Login -/

/-! ### The matcher against the pattern -/

theorem dropLiteral_append (lit t : Str) : dropLiteral lit (lit ++ t) = some t := by
  have h : lit.isPrefixOf (lit ++ t) = true :=
    List.isPrefixOf_iff_prefix.mpr (List.prefix_append lit t)
  simp [dropLiteral, h]

theorem dropLiteral_some (lit s r : Str) (h : dropLiteral lit s = some r) : s = lit ++ r := by
  unfold dropLiteral at h
  by_cases hp : lit.isPrefixOf s = true
  · obtain ⟨t, ht⟩ := List.isPrefixOf_iff_prefix.mp hp
    simp only [hp, if_true, Option.some.injEq] at h
    rw [← ht, List.drop_left] at h
    rw [← h, ht]
  · simp [hp] at h

theorem takeWhile_run (u t : Str) (hu : ∀ c ∈ u, isWord c = true) :
    (u ++ t).takeWhile isWord = u ++ t.takeWhile isWord := by
  induction u with
  | nil => rfl
  | cons c u ih =>
    have hc : isWord c = true := hu c (by simp)
    have hu2 : ∀ d ∈ u, isWord d = true := fun d hd => hu d (by simp [hd])
    simp [List.takeWhile, hc, ih hu2]

theorem dropWhile_run (u t : Str) (hu : ∀ c ∈ u, isWord c = true) :
    (u ++ t).dropWhile isWord = t.dropWhile isWord := by
  induction u with
  | nil => rfl
  | cons c u ih =>
    have hc : isWord c = true := hu c (by simp)
    have hu2 : ∀ d ∈ u, isWord d = true := fun d hd => hu d (by simp [hd])
    simp [List.dropWhile, hc, ih hu2]

theorem matchLogresp_of_IsLogresp (text user s server rest : Str)
    (h : IsLogresp text user s server) :
    ∃ whole g3 g4 g5, matchLogresp (text ++ rest) = some [whole, user, s, g3, g4, g5] := by
  obtain ⟨ht, hu0, hu, hs, hv0, hv⟩ := h
  have e : text ++ rest = "# logresp ".toList ++
      (user ++ (' ' :: (s ++ (", server ".toList ++ (server ++ rest))))) := by
    rw [ht]; simp
  have h1 := dropLiteral_append "# logresp ".toList
    (user ++ (' ' :: (s ++ (", server ".toList ++ (server ++ rest)))))
  have h2 : (user ++ (' ' :: (s ++ (", server ".toList ++ (server ++ rest))))).takeWhile isWord
      = user := by
    rw [takeWhile_run _ _ hu]
    simp [List.takeWhile, isWord]
  have h3 : (user ++ (' ' :: (s ++ (", server ".toList ++ (server ++ rest))))).dropWhile isWord
      = ' ' :: (s ++ (", server ".toList ++ (server ++ rest))) := by
    rw [dropWhile_run _ _ hu]
    simp [List.dropWhile, isWord]
  have h4 : dropLiteral " ".toList (' ' :: (s ++ (", server ".toList ++ (server ++ rest))))
      = some (s ++ (", server ".toList ++ (server ++ rest))) :=
    dropLiteral_append " ".toList _
  have h5 := dropLiteral_append ", server ".toList (server ++ rest)
  have h6 : (server ++ rest).takeWhile isWord = server ++ rest.takeWhile isWord :=
    takeWhile_run _ _ hv
  have h7 : server ++ rest.takeWhile isWord ≠ [] := by
    simp [hv0]
  rw [e]
  unfold matchLogresp
  simp only [h1, h2, h3, h4, hu0, if_false]
  rcases hs with hs | hs
  · have h8 : dropLiteral statusVerified (s ++ (", server ".toList ++ (server ++ rest)))
        = some (", server ".toList ++ (server ++ rest)) := by
      rw [hs]; exact dropLiteral_append _ _
    simp only [h8, Option.isSome_some, if_true, Option.orElse, h5, h6, h7, if_false]
    exact ⟨_, _, _, _, by rw [hs]⟩
  · have h8 : dropLiteral statusVerified (s ++ (", server ".toList ++ (server ++ rest)))
        = none := by
      rw [hs]; simp [dropLiteral, statusVerified, statusUnverified, List.isPrefixOf]
    have h9 : dropLiteral statusUnverified (s ++ (", server ".toList ++ (server ++ rest)))
        = some (", server ".toList ++ (server ++ rest)) := by
      rw [hs]; exact dropLiteral_append _ _
    simp only [h8, h9, Option.isSome_none, Option.orElse, h5, h6, h7, if_false]
    exact ⟨_, _, _, _, by rw [hs]; rfl⟩

theorem takeWhile_isWord_all (t : Str) : ∀ c ∈ t.takeWhile isWord, isWord c = true := by
  intro c hc
  exact (List.mem_takeWhile_imp hc)

theorem IsLogresp_of_matchLogresp (t : Str) (g : List Str) (h : matchLogresp t = some g) :
    ∃ text rest user s server, t = text ++ rest ∧ IsLogresp text user s server := by
  unfold matchLogresp at h
  cases h1 : dropLiteral "# logresp ".toList t with
  | none =>
    rw [h1] at h
    exact absurd h (by simp)
  | some s1 =>
    simp only [h1] at h
    by_cases hu : s1.takeWhile isWord = []
    · simp only [hu, if_true] at h
      exact absurd h (by simp)
    · simp only [hu, if_false] at h
      cases h2 : dropLiteral " ".toList (s1.dropWhile isWord) with
      | none =>
        rw [h2] at h
        exact absurd h (by simp)
      | some s2 =>
        simp only [h2] at h
        have key : ∀ (st s3 : Str), (st = statusVerified ∨ st = statusUnverified) →
            s2 = st ++ s3 → (dropLiteral ", server ".toList s3).isSome = true →
            (∀ s4, dropLiteral ", server ".toList s3 = some s4 → s4.takeWhile isWord ≠ []) →
            ∃ text rest user s server, t = text ++ rest ∧ IsLogresp text user s server := by
          intro st s3 hst e2 h3 h4
          obtain ⟨s4, hs4⟩ := Option.isSome_iff_exists.mp h3
          have hv := h4 s4 hs4
          refine ⟨"# logresp ".toList ++ s1.takeWhile isWord ++ " ".toList ++ st
              ++ ", server ".toList ++ s4.takeWhile isWord, s4.dropWhile isWord,
            s1.takeWhile isWord, st, s4.takeWhile isWord, ?_,
            rfl, hu, takeWhile_isWord_all s1, hst, hv, takeWhile_isWord_all s4⟩
          have e1 := dropLiteral_some _ _ _ h1
          have e3 := dropLiteral_some _ _ _ h2
          have e4 := dropLiteral_some _ _ _ hs4
          calc t = "# logresp ".toList ++ s1 := e1
            _ = "# logresp ".toList ++ (s1.takeWhile isWord ++ s1.dropWhile isWord) := by
                rw [List.takeWhile_append_dropWhile]
            _ = "# logresp ".toList ++ (s1.takeWhile isWord ++ (" ".toList ++ s2)) := by
                rw [e3]
            _ = "# logresp ".toList ++ (s1.takeWhile isWord ++ (" ".toList ++ (st ++
                  (", server ".toList ++ (s4.takeWhile isWord ++ s4.dropWhile isWord))))) := by
                rw [e2, e4, List.takeWhile_append_dropWhile]
            _ = _ := by simp only [List.append_assoc]
        cases hv : dropLiteral statusVerified s2 with
        | some s3 =>
          simp only [hv, Option.orElse, Option.isSome_some, if_true] at h
          refine key statusVerified s3 (Or.inl rfl) (dropLiteral_some _ _ _ hv) ?_ ?_
          · cases h3 : dropLiteral ", server ".toList s3 with
            | none =>
              simp only [h3] at h
              exact absurd h (by simp)
            | some s4 => rfl
          · intro s4 h3 hw
            simp only [h3, hw, if_true] at h
            exact absurd h (by simp)
        | none =>
          simp only [hv, Option.orElse, Option.isSome_none] at h
          cases hn : dropLiteral statusUnverified s2 with
          | none =>
            simp only [hn] at h
            exact absurd h (by simp)
          | some s3 =>
            simp only [hn] at h
            refine key statusUnverified s3 (Or.inr rfl) (dropLiteral_some _ _ _ hn) ?_ ?_
            · cases h3 : dropLiteral ", server ".toList s3 with
              | none =>
                simp only [h3] at h
                exact absurd h (by simp)
              | some s4 => rfl
            · intro s4 h3 hw
              simp only [h3, hw, if_true] at h
              exact absurd h (by simp)

theorem findLogresp_skip (pre t : Str) (g : List Str) (hm : matchLogresp t = some g)
    (hno : ∀ j, j < pre.length → matchLogresp ((pre ++ t).drop j) = none) :
    findLogresp (pre ++ t) = some g := by
  induction pre with
  | nil =>
    cases t with
    | nil => simpa [findLogresp] using hm
    | cons c cs => simp [findLogresp, hm]
  | cons c pre ih =>
    have h0 := hno 0 (by simp)
    simp only [List.drop_zero, List.cons_append] at h0
    have hrest : ∀ j, j < pre.length → matchLogresp ((pre ++ t).drop j) = none := by
      intro j hj
      have := hno (j + 1) (by simpa using hj)
      simpa using this
    have step : findLogresp (c :: (pre ++ t)) = findLogresp (pre ++ t) := by
      simp only [findLogresp, h0]
    show findLogresp (c :: (pre ++ t)) = some g
    rw [step]
    exact ih hrest

theorem findLogresp_of_ParsesWithStatus (line s : Str) (h : ParsesWithStatus line s) :
    ∃ whole user g3 g4 g5, findLogresp line = some [whole, user, s, g3, g4, g5] := by
  obtain ⟨pre, text, rest, user, server, e, hl, hleft⟩ := h
  obtain ⟨whole, g3, g4, g5, hm⟩ := matchLogresp_of_IsLogresp text user s server rest hl
  refine ⟨whole, user, g3, g4, g5, ?_⟩
  rw [e, List.append_assoc]
  refine findLogresp_skip pre (text ++ rest) _ hm ?_
  intro j hj
  cases hmj : matchLogresp ((pre ++ (text ++ rest)).drop j) with
  | none => rfl
  | some g =>
    exfalso
    obtain ⟨text2, rest2, user2, s2, server2, e2, hl2⟩ := IsLogresp_of_matchLogresp _ g hmj
    have e3 : line = (pre ++ (text ++ rest)).take j ++ text2 ++ rest2 := by
      rw [List.append_assoc, ← e2, List.take_append_drop, e, List.append_assoc]
    have := hleft _ _ _ _ _ _ e3 hl2
    have hlen : ((pre ++ (text ++ rest)).take j).length = j := by
      rw [List.length_take]
      simp only [List.length_append]
      omega
    omega

theorem unpackResponse_of_ParsesWithStatus (line s : Str) (h : ParsesWithStatus line s) :
    ∃ data, unpackResponse line loginConfimationPattern = some data
      ∧ (mapGet data "status".toList).getD [] = s := by
  obtain ⟨whole, user, g3, g4, g5, hf⟩ := findLogresp_of_ParsesWithStatus line s h
  refine ⟨unpackLoop [whole, user, s, g3, g4, g5] 0 loginConfimationPattern.SubexpNames [],
    by simp only [unpackResponse, loginConfimationPattern, hf], ?_⟩
  simp [loginConfimationPattern, unpackLoop, mapSet, mapGet]

/-! ### The handshake -/

theorem dial_of_response (ac : AprsConnection) (w : DialWorld) (conn : Conn) (g line : Str)
    (data : GoMap Str) (hc : w.connect = .ok conn) (hg : w.greeting = .ok g)
    (hr : w.response = .ok line)
    (hd : unpackResponse line loginConfimationPattern = some data) :
    dial ac w =
      if ac.settings.HasPassword
          && (mapGet data "status".toList).getD [] != statusVerified then
        (none, some Error.LoginFailedError)
      else (some conn, none) := by
  simp only [dial, hc, hg, hr, hd]

/-- C7: when the connect and both reads succeed and the response line parses
against the login-confirmation pattern with status `s`, `dial` with the
credentials `NewSettings u p f` fails with `LoginFailedError` if and only if
`p` is neither empty nor `-1` and `s` is not `verified`; otherwise it returns
the connection and a nil error. -/
theorem dial_login_failed_iff (Package Version u p f s g line : Str) (server : Urler)
    (withReconnect : Bool) (w : DialWorld) (conn : Conn)
    (hc : w.connect = .ok conn) (hg : w.greeting = .ok g) (hr : w.response = .ok line)
    (hp : ParsesWithStatus line s) :
    (dial { server := server, settings := NewSettings Package Version u p f,
            withReconnect := withReconnect } w = (none, some Error.LoginFailedError)
      ↔ (p ≠ [] ∧ p ≠ "-1".toList ∧ s ≠ "verified".toList))
    ∧ (¬ (p ≠ [] ∧ p ≠ "-1".toList ∧ s ≠ "verified".toList) →
        dial { server := server, settings := NewSettings Package Version u p f,
               withReconnect := withReconnect } w = (some conn, none)) := by
  obtain ⟨data, hd, hs⟩ := unpackResponse_of_ParsesWithStatus line s hp
  rw [dial_of_response _ w conn g line data hc hg hr hd, hs]
  by_cases h : p ≠ [] ∧ p ≠ "-1".toList ∧ s ≠ "verified".toList
  · obtain ⟨h1, h2, h3⟩ := h
    simp [NewSettings, settings.HasPassword, statusVerified, h1, h2, h3]
  · have hcond : ((NewSettings Package Version u p f).HasPassword
        && s != statusVerified) = false := by
      simp only [NewSettings, settings.HasPassword, statusVerified]
      by_cases h1 : p = []
      · simp [h1]
      · by_cases h2 : p = "-1".toList
        · simp [h2]
        · have h3 : s = "verified".toList := by
            by_contra h3
            exact h ⟨h1, h2, h3⟩
          simp [h3]
    simp only [hcond]
    refine ⟨⟨fun e => ?_, fun e => absurd e h⟩, fun _ => ?_⟩
    · simp at e
    · simp

/-- The server confirms the login of `bob`.  With the password `12345` the
handshake fails on `unverified` and returns the connection on `verified`;
without a password it returns the connection on `unverified` too. -/
theorem dial_login_failed_iff_witness :
    dial { server := { URL := [] },
           settings := NewSettings "ogn-go".toList "0.1".toList "bob".toList
             "12345".toList [],
           withReconnect := false } (answeringWorld statusUnverified)
      = (none, some Error.LoginFailedError)
    ∧ dial { server := { URL := [] },
             settings := NewSettings "ogn-go".toList "0.1".toList "bob".toList
               "12345".toList [],
             withReconnect := false } (answeringWorld statusVerified)
      = (some { id := 1 }, none)
    ∧ dial { server := { URL := [] },
             settings := NewSettings "ogn-go".toList "0.1".toList "bob".toList [] [],
             withReconnect := false } (answeringWorld statusUnverified)
      = (some { id := 1 }, none) :=
  ⟨((dial_login_failed_iff "ogn-go".toList "0.1".toList "bob".toList "12345".toList []
      "unverified".toList "# aprsc 2.1.4".toList
      "# logresp bob unverified, server TEST".toList { URL := [] } false
      (answeringWorld statusUnverified) { id := 1 } rfl rfl rfl
      ⟨[], "# logresp bob unverified, server TEST".toList, [], "bob".toList, "TEST".toList,
        rfl, ⟨rfl, by decide, by decide, Or.inr rfl, by decide, by decide⟩,
        fun _ _ _ _ _ _ _ _ => Nat.zero_le _⟩).1).2 ⟨by decide, by decide, by decide⟩,
   (dial_login_failed_iff "ogn-go".toList "0.1".toList "bob".toList "12345".toList []
      "verified".toList "# aprsc 2.1.4".toList
      "# logresp bob verified, server TEST".toList { URL := [] } false
      (answeringWorld statusVerified) { id := 1 } rfl rfl rfl
      ⟨[], "# logresp bob verified, server TEST".toList, [], "bob".toList, "TEST".toList,
        rfl, ⟨rfl, by decide, by decide, Or.inl rfl, by decide, by decide⟩,
        fun _ _ _ _ _ _ _ _ => Nat.zero_le _⟩).2 (by decide),
   (dial_login_failed_iff "ogn-go".toList "0.1".toList "bob".toList [] []
      "unverified".toList "# aprsc 2.1.4".toList
      "# logresp bob unverified, server TEST".toList { URL := [] } false
      (answeringWorld statusUnverified) { id := 1 } rfl rfl rfl
      ⟨[], "# logresp bob unverified, server TEST".toList, [], "bob".toList, "TEST".toList,
        rfl, ⟨rfl, by decide, by decide, Or.inr rfl, by decide, by decide⟩,
        fun _ _ _ _ _ _ _ _ => Nat.zero_le _⟩).2 (by decide)⟩

end ogn

namespace ogn

/-! ## Reconnection -/

theorem reconnectFrom_dials_le (ac : AprsConnection) (w : World) (n i : Nat) (r : Run) :
    (reconnectFrom ac w n i r).2.dials ≤ r.dials + n := by
  induction n generalizing i r with
  | zero => simp [reconnectFrom]
  | succ n ih =>
    simp only [reconnectFrom]
    cases h : (dialAt ac w { dials := r.dials, log := r.log ++ [Event.sleep i] }).1.2 with
    | none =>
      simp only [dialAt]
      omega
    | some e =>
      have := ih (i + 1) (dialAt ac w { dials := r.dials, log := r.log ++ [Event.sleep i] }).2
      simp only [dialAt] at this ⊢
      omega

theorem reconnectFrom_all_fail (ac : AprsConnection) (w : World) (n i : Nat) (r : Run)
    (h : ∀ j, j < n → (dial ac (w.dials (r.dials + j))).2 ≠ none) :
    (reconnectFrom ac w n i r).1 = (none, some Error.ReconnectFailedError)
    ∧ (reconnectFrom ac w n i r).2.dials = r.dials + n := by
  induction n generalizing i r with
  | zero => simp [reconnectFrom]
  | succ n ih =>
    have h0 := h 0 (Nat.succ_pos n)
    simp only [Nat.add_zero] at h0
    obtain ⟨e, he⟩ := Option.ne_none_iff_exists'.mp h0
    have hrest : ∀ j, j < n →
        (dial ac (w.dials
          ((dialAt ac w { dials := r.dials, log := r.log ++ [Event.sleep i] }).2.dials + j))).2
          ≠ none := by
      intro j hj
      have := h (j + 1) (Nat.succ_lt_succ hj)
      simp only [dialAt]
      rwa [show r.dials + 1 + j = r.dials + (j + 1) by omega]
    have := ih (i + 1) _ hrest
    simp only [reconnectFrom]
    have hd : (dialAt ac w { dials := r.dials, log := r.log ++ [Event.sleep i] }).1.2
        = some e := by
      simpa [dialAt] using he
    simp only [hd]
    refine ⟨this.1, ?_⟩
    rw [this.2]
    simp only [dialAt]
    omega

theorem reconnectFrom_first_success (ac : AprsConnection) (w : World) (n i : Nat) (r : Run)
    (j : Nat) (hj : j < n)
    (hfail : ∀ k, k < j → (dial ac (w.dials (r.dials + k))).2 ≠ none)
    (hok : (dial ac (w.dials (r.dials + j))).2 = none) :
    (reconnectFrom ac w n i r).1 = dial ac (w.dials (r.dials + j))
    ∧ (reconnectFrom ac w n i r).2.dials = r.dials + j + 1 := by
  induction n generalizing i r j with
  | zero => omega
  | succ n ih =>
    simp only [reconnectFrom]
    cases j with
    | zero =>
      have hd : (dialAt ac w { dials := r.dials, log := r.log ++ [Event.sleep i] }).1.2
          = none := by
        simpa [dialAt] using hok
      simp only [hd]
      simp [dialAt]
    | succ j =>
      have h0 := hfail 0 (Nat.succ_pos j)
      simp only [Nat.add_zero] at h0
      obtain ⟨e, he⟩ := Option.ne_none_iff_exists'.mp h0
      have hd : (dialAt ac w { dials := r.dials, log := r.log ++ [Event.sleep i] }).1.2
          = some e := by
        simpa [dialAt] using he
      simp only [hd]
      have hfail2 : ∀ k, k < j →
          (dial ac (w.dials
            ((dialAt ac w { dials := r.dials, log := r.log ++ [Event.sleep i] }).2.dials
              + k))).2 ≠ none := by
        intro k hk
        have := hfail (k + 1) (Nat.succ_lt_succ hk)
        simp only [dialAt]
        rwa [show r.dials + 1 + k = r.dials + (k + 1) by omega]
      have hok2 : (dial ac (w.dials
          ((dialAt ac w { dials := r.dials, log := r.log ++ [Event.sleep i] }).2.dials
            + j))).2 = none := by
        simp only [dialAt]
        rwa [show r.dials + 1 + j = r.dials + (j + 1) by omega]
      have := ih (i + 1) _ j (Nat.lt_of_succ_lt_succ hj) hfail2 hok2
      refine ⟨?_, ?_⟩
      · rw [this.1]
        simp only [dialAt]
        rw [show r.dials + 1 + j = r.dials + (j + 1) by omega]
      · rw [this.2]
        simp only [dialAt]
        omega

/-- Among finitely many dials, either all fail or there is a first one that
succeeds. -/
theorem first_success_or_all_fail (P : Nat → Prop) [DecidablePred P] (n : Nat) :
    (∀ j, j < n → ¬ P j) ∨ ∃ j, j < n ∧ (∀ k, k < j → ¬ P k) ∧ P j := by
  induction n with
  | zero => exact Or.inl (fun j hj => absurd hj (Nat.not_lt_zero j))
  | succ n ih =>
    rcases ih with h | ⟨j, hj, hb, hp⟩
    · by_cases hn : P n
      · exact Or.inr ⟨n, Nat.lt_succ_self n, h, hn⟩
      · left
        intro j hj
        rcases Nat.lt_succ_iff_lt_or_eq.mp hj with h1 | h1
        · exact h j h1
        · rw [h1]
          exact hn
    · exact Or.inr ⟨j, Nat.lt_succ_of_lt hj, hb, hp⟩

/-- C9: one call of `reconnect` makes at most 6 dials; it stops at the first
dial that succeeds and returns the result of that dial, a connection with a
nil error; and it returns `ReconnectFailedError`, with no connection, if and
only if all 6 dials fail. -/
theorem reconnect_stops_at_first_success (ac : AprsConnection) (w : World) (r : Run) :
    (reconnect ac w r).2.dials ≤ r.dials + 6
    ∧ (∀ j, j < 6 → (∀ k, k < j → (dial ac (w.dials (r.dials + k))).2 ≠ none) →
        (dial ac (w.dials (r.dials + j))).2 = none →
        (reconnect ac w r).1 = dial ac (w.dials (r.dials + j))
        ∧ (reconnect ac w r).1.2 = none
        ∧ (reconnect ac w r).2.dials = r.dials + j + 1)
    ∧ ((reconnect ac w r).1.2 = some Error.ReconnectFailedError
        ↔ ∀ j, j < 6 → (dial ac (w.dials (r.dials + j))).2 ≠ none)
    ∧ ((reconnect ac w r).1.2 = some Error.ReconnectFailedError →
        (reconnect ac w r).1.1 = none ∧ (reconnect ac w r).2.dials = r.dials + 6) := by
  have hall : (∀ j, j < 6 → (dial ac (w.dials (r.dials + j))).2 ≠ none) →
      (reconnect ac w r).1 = (none, some Error.ReconnectFailedError)
      ∧ (reconnect ac w r).2.dials = r.dials + 6 :=
    fun h => reconnectFrom_all_fail ac w 6 0 r h
  have hiff : (reconnect ac w r).1.2 = some Error.ReconnectFailedError
      → ∀ j, j < 6 → (dial ac (w.dials (r.dials + j))).2 ≠ none := by
    intro herr
    rcases first_success_or_all_fail
      (fun j => (dial ac (w.dials (r.dials + j))).2 = none) 6 with h | ⟨j, hj, hb, hp⟩
    · exact h
    · have := (reconnectFrom_first_success ac w 6 0 r j hj hb hp).1
      have e : (reconnect ac w r).1.2 = none := by
        rw [show (reconnect ac w r).1 = dial ac (w.dials (r.dials + j)) from this]
        exact hp
      rw [e] at herr
      exact absurd herr (by simp)
  refine ⟨reconnectFrom_dials_le ac w 6 0 r, ?_, ⟨hiff, fun h => ?_⟩, fun herr => ?_⟩
  · intro j hj hb hp
    have := reconnectFrom_first_success ac w 6 0 r j hj hb hp
    refine ⟨this.1, ?_, this.2⟩
    rw [show (reconnect ac w r).1 = dial ac (w.dials (r.dials + j)) from this.1]
    exact hp
  · rw [(hall h).1]
  · have := hall (hiff herr)
    exact ⟨by rw [this.1], this.2⟩

/-! ## The loop of `Receive` -/

theorem receiveLoop_keeps_running (ac : AprsConnection) (w : World)
    (hre : ac.withReconnect = true) (hdone : ∀ k, w.done k = false)
    (fuel : Nat) (conn : Option Conn) (k : Nat) (r : Run) :
    ∃ r2, receiveLoop ac w fuel conn none k r = Outcome.running r2 := by
  induction fuel generalizing conn k r with
  | zero => exact ⟨r, rfl⟩
  | succ fuel ih =>
    simp only [receiveLoop, hdone, hre]
    exact ih _ _ _

/-- C8: with reconnection enabled and no cancellation, after a streaming
session has failed and all 6 dials of the following `reconnect` have failed,
`Receive` does not return: it streams again, on the nil connection, and
dials 6 more times; and it has not returned after any number of iterations. -/
theorem Receive_continues_after_failed_reconnect :
    Receive (cliConnection [] []) lostServer 2
      = Outcome.running
          { dials := 13,
            log := [Event.dial, Event.stream (some { id := 1 }),
                    Event.sleep 0, Event.dial, Event.sleep 1, Event.dial,
                    Event.sleep 2, Event.dial, Event.sleep 3, Event.dial,
                    Event.sleep 4, Event.dial, Event.sleep 5, Event.dial,
                    Event.stream none,
                    Event.sleep 0, Event.dial, Event.sleep 1, Event.dial,
                    Event.sleep 2, Event.dial, Event.sleep 3, Event.dial,
                    Event.sleep 4, Event.dial, Event.sleep 5, Event.dial] }
    ∧ ∀ fuel, ∃ r, Receive (cliConnection [] []) lostServer fuel = Outcome.running r := by
  refine ⟨by decide, fun fuel => ?_⟩
  have h0 : (dialAt (cliConnection [] []) lostServer { dials := 0, log := [] }).1.2
      = none := by decide
  simp only [Receive, h0]
  exact receiveLoop_keeps_running _ _ rfl (fun _ => rfl) fuel _ 0 _

end ogn
